import Mathlib

/-!
Verification of the PropertyRankings scoring pipeline (src/app.py, src/debug.py).

The pipeline operates on a pandas DataFrame whose numeric cells are floats
that may be NaN (missing).  We model a cell as `Option ℚ`: `some q` is a
finite value, `none` is NaN/missing.  Arithmetic on cells propagates `none`
the way IEEE arithmetic propagates NaN; a division whose denominator is zero
(which in the float code yields a non-finite result, NaN or ±inf) is also
collapsed to `none`.  Column aggregates `.max()` / `.min()` skip missing
values, as pandas does with its default `skipna=True`.
-/

namespace PropertyRankings

/-- Value of one numeric DataFrame cell: `some q` models a finite float,
`none` models NaN (missing / non-finite). -/
abbrev Val := Option ℚ

/-- Addition of cells, NaN-propagating. -/
def nanAdd : Val → Val → Val
  | some a, some b => some (a + b)
  | _, _ => none

/-- Subtraction of cells, NaN-propagating. -/
def nanSub : Val → Val → Val
  | some a, some b => some (a - b)
  | _, _ => none

/-- Multiplication of cells, NaN-propagating. -/
def nanMul : Val → Val → Val
  | some a, some b => some (a * b)
  | _, _ => none

/-- Division of cells, NaN-propagating; a zero denominator yields a
non-finite float in the source, collapsed to `none` here. -/
def nanDiv : Val → Val → Val
  | some a, some b => if b = 0 then none else some (a / b)
  | _, _ => none

/-- Binary step of the pandas column maximum with `skipna=True`. -/
def nanMax : Val → Val → Val
  | some a, some b => some (max a b)
  | some a, none => some a
  | none, b => b

/-- Binary step of the pandas column minimum with `skipna=True`. -/
def nanMin : Val → Val → Val
  | some a, some b => some (min a b)
  | some a, none => some a
  | none, b => b

/-- Column maximum, as `df[col].max()`: missing values are skipped and an
all-missing (or empty) column has maximum NaN. -/
def colMax (xs : List Val) : Val := xs.foldr nanMax none

/-- Column minimum, as `df[col].min()`. -/
def colMin (xs : List Val) : Val := xs.foldr nanMin none

/-- One row of the DataFrame at the point `calculate_score` consumes it:
the five raw metric columns Payment, Size, Metro, Commute and
Time to Smithsonian. -/
structure Listing where
  payment : Val
  size : Val
  metro : Val
  commute : Val
  timeToSmithsonian : Val
deriving DecidableEq, Repr

/-- A row after `calculate_score` ran: the raw row plus the five normalized
columns and the Score column it assigns. -/
structure ScoredListing where
  listing : Listing
  normPayment : Val
  normSize : Val
  normMetro : Val
  normCommute : Val
  normTransit : Val
  score : Val
deriving DecidableEq, Repr

/-- The collection-wide aggregates `calculate_score` reads before assigning
the normalized columns. -/
structure ScoreCtx where
  maxPayment : Val
  minSqFt : Val
  maxSqFt : Val
  maxMetro : Val
  maxCommute : Val
  maxTransit : Val
deriving DecidableEq, Repr

/-- Aggregates of `calculate_score` (src/app.py lines 145-149, plus the
inline `df[Size].max()` of line 151). -/
def mkCtx (df : List Listing) : ScoreCtx where
  maxPayment := colMax (df.map fun r => r.payment)
  minSqFt := colMin (df.map fun r => r.size)
  maxSqFt := colMax (df.map fun r => r.size)
  maxMetro := colMax (df.map fun r => r.metro)
  maxCommute := colMax (df.map fun r => r.commute)
  maxTransit := colMax (df.map fun r => r.timeToSmithsonian)

/-- The per-row assignments of `calculate_score` (src/app.py lines 150-155):
the five normalized columns and the weighted Score. -/
def scoreRow (ctx : ScoreCtx) (r : Listing) : ScoredListing :=
  let np := nanSub (some 1) (nanDiv r.payment ctx.maxPayment)
  let ns := nanDiv (nanSub r.size ctx.minSqFt) (nanSub ctx.maxSqFt ctx.minSqFt)
  let nm := nanSub (some 1) (nanDiv r.metro ctx.maxMetro)
  let nc := nanSub (some 1) (nanDiv r.commute ctx.maxCommute)
  let nt := nanSub (some 1) (nanDiv r.timeToSmithsonian ctx.maxTransit)
  let sc := nanAdd (nanAdd (nanAdd (nanAdd
      (nanMul (some 0.25) np) (nanMul (some 0.25) ns))
      (nanMul (some 0.20) nm)) (nanMul (some 0.20) nc)) (nanMul (some 0.10) nt)
  ⟨r, np, ns, nm, nc, nt, sc⟩

/-- Embedding of `calculate_score` (src/app.py lines 143-156, identical in
src/debug.py lines 81-94): column-wise vectorized pandas arithmetic, i.e.
per-row assignment against collection-wide aggregates. -/
def calculate_score (df : List Listing) : List ScoredListing :=
  df.map (scoreRow (mkCtx df))

/-- Embedding of `calculate_monthly_payment` (src/app.py lines 93-112) on
numeric inputs. -/
def calculate_monthly_payment (price annual_tax hoa annual_interest_rate : ℚ)
    (loan_term_years : ℕ) : ℚ :=
  let loan_amount := price * 0.8
  let monthly_interest_rate := annual_interest_rate / 12
  let total_payments := loan_term_years * 12
  let monthly_mortgage_payment :=
    if 0 < monthly_interest_rate then
      loan_amount * (monthly_interest_rate * (1 + monthly_interest_rate) ^ total_payments)
        / ((1 + monthly_interest_rate) ^ total_payments - 1)
    else
      loan_amount / (total_payments : ℚ)
  let monthly_tax := annual_tax / 12
  monthly_mortgage_payment + monthly_tax + hoa

/-- Embedding of the variant `calculate_monthly_payment` of src/debug.py
lines 42-48, which amortizes `price + annual_tax/12 + hoa` directly and takes
the monthly rate and installment count as arguments. -/
def debug_calculate_monthly_payment (price annual_tax hoa monthly_interest_rate : ℚ)
    (total_payments : ℕ) : ℚ :=
  let monthly_tax := if 0 < annual_tax then annual_tax / 12 else 0
  let total_loan_amount := price + monthly_tax + hoa
  if 0 < monthly_interest_rate then
    total_loan_amount * (monthly_interest_rate * (1 + monthly_interest_rate) ^ total_payments)
      / ((1 + monthly_interest_rate) ^ total_payments - 1)
  else
    total_loan_amount / (total_payments : ℚ)

/-- Character class of the regex `\s` (Python whitespace, ASCII range). -/
def isPySpace (c : Char) : Bool :=
  c == ' ' || c == '\t' || c == '\n' || c == '\r' || c == '\x0b' || c == '\x0c'

/-- Character class of the regex `\d` (decimal digits, ASCII range). -/
def isReDigit (c : Char) : Bool :=
  c == '0' || c == '1' || c == '2' || c == '3' || c == '4' ||
  c == '5' || c == '6' || c == '7' || c == '8' || c == '9'

/-- Greedy longest run of characters satisfying `p`, together with the rest:
the behaviour of a greedy character-class repetition at a fixed position. -/
def spanP (p : Char → Bool) : List Char → List Char × List Char
  | [] => ([], [])
  | c :: cs =>
    if p c then
      let r := spanP p cs
      (c :: r.1, r.2)
    else ([], c :: cs)

/-- Numeric value of a digit character, as Python `int` reads it. -/
def digitVal (c : Char) : ℕ := c.toNat - 48

/-- Value of a decimal digit string, as Python `int(group)`. -/
def digitsToNat (ds : List Char) : ℕ := ds.foldl (fun a c => 10 * a + digitVal c) 0

/-- Matcher for the regex fragment `(?:(\d+)\s+UNIT[s]?)?` at the current
position: greedy digits, at least one whitespace, the literal unit word, an
optional trailing letter s.  Returns the captured number and the remainder,
or `none` when the optional group matches empty.  Greediness needs no
backtracking here: a shorter digit run is followed by a digit, never by
whitespace, and a shorter whitespace run is followed by whitespace, never by
the unit word. -/
def matchUnit (unit : List Char) (cs : List Char) : Option (ℕ × List Char) :=
  let ds := spanP isReDigit cs
  if ds.1.isEmpty then none
  else
    let sp := spanP isPySpace ds.2
    if sp.1.isEmpty then none
    else if unit.isPrefixOf sp.2 then
      let rest := sp.2.drop unit.length
      let rest2 := if rest.head? = some 's' then rest.tail else rest
      some (digitsToNat ds.1, rest2)
    else none

/-- The literal `hour` of the regex. -/
def hourLit : List Char := ['h', 'o', 'u', 'r']

/-- The literal `min` of the regex. -/
def minLit : List Char := ['m', 'i', 'n']

/-- Result of `re.search` with the pattern
`(?:(\d+)\s+hour[s]?)?\s*(?:(\d+)\s+min[s]?)?` followed by
`hours * 60 + minutes` with absent groups read as 0.  Both groups are
optional, so the pattern matches (possibly emptily) at position 0 of every
string and `re.search` always succeeds there: the leftmost match starts at
index 0, tries the hour group, then consumes `\s*`, then tries the min
group. -/
def searchMinutes (cs : List Char) : ℕ :=
  match matchUnit hourLit cs with
  | some hr =>
    match matchUnit minLit (spanP isPySpace hr.2).2 with
    | some mr => hr.1 * 60 + mr.1
    | none => hr.1 * 60
  | none =>
    match matchUnit minLit (spanP isPySpace cs).2 with
    | some mr => mr.1
    | none => 0

/-- Embedding of `convert_time_to_minutes` (src/app.py lines 76-86, identical
in src/debug.py lines 24-34).  A `None` or non-string argument is `none`; the
empty string is falsy in Python, so it also returns NaN; every other string
is searched with the regex, which always matches. -/
def convert_time_to_minutes (time_str : Option String) : Val :=
  match time_str with
  | none => none
  | some s => if s.toList.isEmpty then none else some ((searchMinutes s.toList : ℕ) : ℚ)

/-- The Commute column of `update_graph` (src/app.py lines 218-222, identical
in the src/debug.py main block lines 108-112): the mean of the parsed
evening time from NIH and the parsed morning time to NIH. -/
def commuteMinutes (timeToNIH timeFromNIH : Option String) : Val :=
  nanDiv (nanAdd (convert_time_to_minutes timeFromNIH) (convert_time_to_minutes timeToNIH))
    (some 2)

/-- Score key used when ordering the scored rows; only applied to rows whose
score is present. -/
def scoreVal (r : ScoredListing) : ℚ := r.score.getD 0

/-- Descending insertion into a list already sorted descending by score. -/
def insertDesc (r : ScoredListing) : List ScoredListing → List ScoredListing
  | [] => [r]
  | x :: xs => if scoreVal x ≤ scoreVal r then r :: x :: xs else x :: insertDesc r xs

/-- Descending sort by score of rows whose score is present. -/
def sortDesc (l : List ScoredListing) : List ScoredListing := l.foldr insertDesc []

/-- Embedding of `df.sort_values(by="Score", ascending=False)` (src/app.py
lines 234-235): pandas places the rows with a present score first, ordered
descending, and appends the NaN-score rows at the end (default
`na_position` is last).  The default sorting kind of pandas is quicksort, whose
order among equal scores is unspecified; this model fixes one concrete
order, and no claim settled here relies on the order of equal scores. -/
def sortScoredDesc (rows : List ScoredListing) : List ScoredListing :=
  sortDesc (rows.filter fun r => r.score.isSome) ++ rows.filter fun r => r.score.isNone

/-- Presence of all five raw metrics of a listing. -/
def FullyPresent (r : Listing) : Prop :=
  r.payment.isSome ∧ r.size.isSome ∧ r.metro.isSome ∧ r.commute.isSome ∧
    r.timeToSmithsonian.isSome

instance (r : Listing) : Decidable (FullyPresent r) := by
  unfold FullyPresent; infer_instance

/-- A nonempty string of decimal digits: the text captured by a `(\d+)`
group. -/
def IsDigitString (ds : List Char) : Prop :=
  ds ≠ [] ∧ ∀ c ∈ ds, isReDigit c = true

instance (ds : List Char) : Decidable (IsDigitString ds) := by
  unfold IsDigitString; infer_instance

/-- The end-to-end scenario collection of the spec: payments 2000, 3000 and
1000; sizes 800, 1000 and 1200; metro distances 200, 400 and 100; commutes
30, 45 and 20; museum-transit times 40, 80 and 20. -/
def c7rows : List Listing :=
  [⟨some 2000, some 800, some 200, some 30, some 40⟩,
   ⟨some 3000, some 1000, some 400, some 45, some 80⟩,
   ⟨some 1000, some 1200, some 100, some 20, some 20⟩]

/-- A degenerate-range collection: five listings all priced at 2000 a month,
the other metrics present and distinct. -/
def c3rows : List Listing :=
  [⟨some 2000, some 800, some 100, some 10, some 15⟩,
   ⟨some 2000, some 900, some 200, some 20, some 25⟩,
   ⟨some 2000, some 1000, some 300, some 30, some 35⟩,
   ⟨some 2000, some 1100, some 400, some 40, some 45⟩,
   ⟨some 2000, some 1200, some 500, some 50, some 55⟩]

/-- A small fully-present two-listing collection. -/
def c1rows : List Listing :=
  [⟨some 1000, some 500, some 100, some 10, some 20⟩,
   ⟨some 2000, some 900, some 300, some 30, some 60⟩]

/-- A fully-present listing preceding the incomplete one. -/
def c4pre : List Listing := [⟨some 2000, some 800, some 100, some 10, some 15⟩]

/-- A listing whose Size cell is missing. -/
def c4bad : Listing := ⟨some 2500, none, some 150, some 25, some 30⟩

/-- A fully-present listing following the incomplete one. -/
def c4post : List Listing := [⟨some 3000, some 1200, some 300, some 30, some 45⟩]

/-- First listing of the permutation example. -/
def c8a : Listing := ⟨some 1500, some 700, some 120, some 12, some 24⟩

/-- Second listing of the permutation example. -/
def c8b : Listing := ⟨some 2500, some 950, some 240, some 36, some 48⟩

/-! Basic facts about the NaN-propagating cell arithmetic. -/

lemma nanSub_none_left (x : Val) : nanSub none x = none := by cases x <;> rfl

lemma nanDiv_none_left (x : Val) : nanDiv none x = none := by cases x <;> rfl

lemma nanAdd_none_left (x : Val) : nanAdd none x = none := by cases x <;> rfl

lemma nanAdd_none_right (x : Val) : nanAdd x none = none := by cases x <;> rfl

lemma nanMul_none_right (x : Val) : nanMul x none = none := by cases x <;> rfl

/-! Facts about the greedy span used by the regex model. -/

lemma spanP_append (p : Char → Bool) (xs ys : List Char)
    (hx : ∀ c ∈ xs, p c = true) (hy : ∀ d, ys.head? = some d → p d = false) :
    spanP p (xs ++ ys) = (xs, ys) := by
  induction xs with
  | nil =>
    cases ys with
    | nil => rfl
    | cons d ds =>
      have hd := hy d rfl
      simp [spanP, hd]
  | cons c cs ih =>
    have hc := hx c (by simp)
    have ih2 := ih (fun c h => hx c (by simp [h]))
    simp [spanP, hc, ih2]

lemma isPySpace_eq_false_of_isReDigit (c : Char) (h : isReDigit c = true) :
    isPySpace c = false := by
  simp only [isReDigit, Bool.or_eq_true, beq_iff_eq] at h
  rcases h with ((((((((rfl | rfl) | rfl) | rfl) | rfl) | rfl) | rfl) | rfl) | rfl) | rfl <;> rfl

/-! Behaviour of the unit matcher on the strings the claims speak about. -/

lemma matchUnit_hour_plural (ds rest : List Char) (h : IsDigitString ds) :
    matchUnit hourLit (ds ++ ' ' :: 'h' :: 'o' :: 'u' :: 'r' :: 's' :: rest) =
      some (digitsToNat ds, rest) := by
  obtain ⟨hne, hdig⟩ := h
  obtain ⟨d, ds2, rfl⟩ := List.exists_cons_of_ne_nil hne
  unfold matchUnit
  rw [spanP_append isReDigit (d :: ds2) _ hdig
    (by intro e he; simp at he; subst he; rfl)]
  rfl

lemma matchUnit_hour_singular (ds rest : List Char) (h : IsDigitString ds)
    (hrest : rest.head? ≠ some 's') :
    matchUnit hourLit (ds ++ ' ' :: 'h' :: 'o' :: 'u' :: 'r' :: rest) =
      some (digitsToNat ds, rest) := by
  obtain ⟨hne, hdig⟩ := h
  obtain ⟨d, ds2, rfl⟩ := List.exists_cons_of_ne_nil hne
  unfold matchUnit
  rw [spanP_append isReDigit (d :: ds2) _ hdig
    (by intro e he; simp at he; subst he; rfl)]
  simp only [List.isEmpty_cons, Bool.false_eq_true, if_false]
  rw [show spanP isPySpace (' ' :: 'h' :: 'o' :: 'u' :: 'r' :: rest) =
    ([' '], 'h' :: 'o' :: 'u' :: 'r' :: rest) from rfl]
  simp [hourLit, List.isPrefixOf, hrest]

lemma matchUnit_min_plural (ds rest : List Char) (h : IsDigitString ds) :
    matchUnit minLit (ds ++ ' ' :: 'm' :: 'i' :: 'n' :: 's' :: rest) =
      some (digitsToNat ds, rest) := by
  obtain ⟨hne, hdig⟩ := h
  obtain ⟨d, ds2, rfl⟩ := List.exists_cons_of_ne_nil hne
  unfold matchUnit
  rw [spanP_append isReDigit (d :: ds2) _ hdig
    (by intro e he; simp at he; subst he; rfl)]
  rfl

lemma matchUnit_min_singular (ds rest : List Char) (h : IsDigitString ds)
    (hrest : rest.head? ≠ some 's') :
    matchUnit minLit (ds ++ ' ' :: 'm' :: 'i' :: 'n' :: rest) =
      some (digitsToNat ds, rest) := by
  obtain ⟨hne, hdig⟩ := h
  obtain ⟨d, ds2, rfl⟩ := List.exists_cons_of_ne_nil hne
  unfold matchUnit
  rw [spanP_append isReDigit (d :: ds2) _ hdig
    (by intro e he; simp at he; subst he; rfl)]
  simp only [List.isEmpty_cons, Bool.false_eq_true, if_false]
  rw [show spanP isPySpace (' ' :: 'm' :: 'i' :: 'n' :: rest) =
    ([' '], 'm' :: 'i' :: 'n' :: rest) from rfl]
  simp [minLit, List.isPrefixOf, hrest]

lemma matchUnit_hour_on_min (ds rest : List Char) (h : IsDigitString ds) :
    matchUnit hourLit (ds ++ ' ' :: 'm' :: 'i' :: 'n' :: rest) = none := by
  obtain ⟨hne, hdig⟩ := h
  obtain ⟨d, ds2, rfl⟩ := List.exists_cons_of_ne_nil hne
  unfold matchUnit
  rw [spanP_append isReDigit (d :: ds2) _ hdig
    (by intro e he; simp at he; subst he; rfl)]
  rfl

lemma spanP_space_cons (ys : List Char)
    (hy : ∀ d, ys.head? = some d → isPySpace d = false) :
    spanP isPySpace (' ' :: ys) = ([' '], ys) := by
  simpa using spanP_append isPySpace [' '] ys (by intro c hc; simp at hc; subst hc; rfl) hy

lemma spanP_none (p : Char → Bool) (ys : List Char)
    (hy : ∀ d, ys.head? = some d → p d = false) :
    spanP p ys = ([], ys) := by
  simpa using spanP_append p [] ys (by simp) hy

lemma head_not_space_of_digits (ds tail : List Char) (h : IsDigitString ds) :
    ∀ d, (ds ++ tail).head? = some d → isPySpace d = false := by
  obtain ⟨hne, hdig⟩ := h
  obtain ⟨e, es, rfl⟩ := List.exists_cons_of_ne_nil hne
  intro d hd
  simp only [List.cons_append, List.head?_cons, Option.some.injEq] at hd
  subst hd
  exact isPySpace_eq_false_of_isReDigit e (hdig e (by simp))

/-! Behaviour of the whole regex search on the strings the claims speak
about. -/

lemma searchMinutes_hm_plural (ds1 ds2 : List Char)
    (h1 : IsDigitString ds1) (h2 : IsDigitString ds2) :
    searchMinutes (ds1 ++ ' ' :: 'h' :: 'o' :: 'u' :: 'r' :: 's' ::
        ' ' :: (ds2 ++ ' ' :: 'm' :: 'i' :: 'n' :: 's' :: [])) =
      digitsToNat ds1 * 60 + digitsToNat ds2 := by
  unfold searchMinutes
  simp only [matchUnit_hour_plural ds1 _ h1]
  simp only [spanP_space_cons _ (head_not_space_of_digits ds2 _ h2)]
  simp only [matchUnit_min_plural ds2 [] h2]

lemma searchMinutes_hm_singular (ds1 ds2 : List Char)
    (h1 : IsDigitString ds1) (h2 : IsDigitString ds2) :
    searchMinutes (ds1 ++ ' ' :: 'h' :: 'o' :: 'u' :: 'r' ::
        ' ' :: (ds2 ++ ' ' :: 'm' :: 'i' :: 'n' :: [])) =
      digitsToNat ds1 * 60 + digitsToNat ds2 := by
  unfold searchMinutes
  simp only [matchUnit_hour_singular ds1 (' ' :: (ds2 ++ ' ' :: 'm' :: 'i' :: 'n' :: []))
    h1 (by simp)]
  simp only [spanP_space_cons _ (head_not_space_of_digits ds2 _ h2)]
  simp only [matchUnit_min_singular ds2 [] h2 (by simp)]

lemma searchMinutes_hours_only (ds1 : List Char) (h1 : IsDigitString ds1) :
    searchMinutes (ds1 ++ ' ' :: 'h' :: 'o' :: 'u' :: 'r' :: 's' :: []) =
      digitsToNat ds1 * 60 := by
  unfold searchMinutes
  rw [matchUnit_hour_plural ds1 [] h1]
  rfl

lemma searchMinutes_mins_only (ds2 : List Char) (h2 : IsDigitString ds2) :
    searchMinutes (ds2 ++ ' ' :: 'm' :: 'i' :: 'n' :: 's' :: []) = digitsToNat ds2 := by
  unfold searchMinutes
  simp only [matchUnit_hour_on_min ds2 ('s' :: []) h2]
  simp only [spanP_none isPySpace _ (head_not_space_of_digits ds2 _ h2)]
  simp only [matchUnit_min_plural ds2 [] h2]

lemma convert_time_to_minutes_mk (L : List Char) (h : L ≠ []) :
    convert_time_to_minutes (some (String.mk L)) = some ((searchMinutes L : ℕ) : ℚ) := by
  obtain ⟨c, cs, rfl⟩ := List.exists_cons_of_ne_nil h
  rfl

/-- C6, amended.  Strings of the documented duration form parse to
`60 * hours + minutes`; `None` / non-string input and the empty string give
the NaN sentinel; but every other nonempty string yields a number as well
(the fully-optional regex matches vacuously), so unmatched text such as the
upstream fallback text `No data` is NOT treated as missing. -/
theorem convert_time_parse_behaviour :
    (∀ ds1 ds2 : List Char, IsDigitString ds1 → IsDigitString ds2 →
      convert_time_to_minutes (some (String.mk (ds1 ++ ' ' :: 'h' :: 'o' :: 'u' :: 'r' :: 's' ::
          ' ' :: (ds2 ++ ' ' :: 'm' :: 'i' :: 'n' :: 's' :: [])))) =
        some ((60 * digitsToNat ds1 + digitsToNat ds2 : ℕ) : ℚ)) ∧
    (∀ ds1 ds2 : List Char, IsDigitString ds1 → IsDigitString ds2 →
      convert_time_to_minutes (some (String.mk (ds1 ++ ' ' :: 'h' :: 'o' :: 'u' :: 'r' ::
          ' ' :: (ds2 ++ ' ' :: 'm' :: 'i' :: 'n' :: [])))) =
        some ((60 * digitsToNat ds1 + digitsToNat ds2 : ℕ) : ℚ)) ∧
    (∀ ds1 : List Char, IsDigitString ds1 →
      convert_time_to_minutes
          (some (String.mk (ds1 ++ ' ' :: 'h' :: 'o' :: 'u' :: 'r' :: 's' :: []))) =
        some ((60 * digitsToNat ds1 : ℕ) : ℚ)) ∧
    (∀ ds2 : List Char, IsDigitString ds2 →
      convert_time_to_minutes
          (some (String.mk (ds2 ++ ' ' :: 'm' :: 'i' :: 'n' :: 's' :: []))) =
        some ((digitsToNat ds2 : ℕ) : ℚ)) ∧
    convert_time_to_minutes none = none ∧
    convert_time_to_minutes (some "") = none ∧
    (∀ s : String, s.toList ≠ [] → ∃ k : ℕ, convert_time_to_minutes (some s) = some (k : ℚ)) := by
  refine ⟨?_, ?_, ?_, ?_, rfl, rfl, ?_⟩
  · intro ds1 ds2 h1 h2
    rw [convert_time_to_minutes_mk _
      (fun hcon => h1.1 (List.append_eq_nil.mp hcon).1)]
    rw [searchMinutes_hm_plural ds1 ds2 h1 h2, Nat.mul_comm (digitsToNat ds1) 60]
  · intro ds1 ds2 h1 h2
    rw [convert_time_to_minutes_mk _
      (fun hcon => h1.1 (List.append_eq_nil.mp hcon).1)]
    rw [searchMinutes_hm_singular ds1 ds2 h1 h2, Nat.mul_comm (digitsToNat ds1) 60]
  · intro ds1 h1
    rw [convert_time_to_minutes_mk _
      (fun hcon => h1.1 (List.append_eq_nil.mp hcon).1)]
    rw [searchMinutes_hours_only ds1 h1, Nat.mul_comm (digitsToNat ds1) 60]
  · intro ds2 h2
    rw [convert_time_to_minutes_mk _
      (fun hcon => h2.1 (List.append_eq_nil.mp hcon).1)]
    rw [searchMinutes_mins_only ds2 h2]
  · intro s hs
    refine ⟨searchMinutes s.toList, ?_⟩
    simp only [convert_time_to_minutes]
    rw [if_neg (by simpa using hs)]

/-- C6, counterexample to the claim as stated: the upstream fallback text
`No data` does not match the duration pattern, yet the function returns the
number 0 rather than the missing-value sentinel. -/
theorem convert_time_no_data :
    convert_time_to_minutes (some "No data") = some 0 ∧
      convert_time_to_minutes (some "No data") ≠ none := by
  constructor <;> decide

/-- C6, witness: the string built from digits 1 and 30 in the documented
form parses to 90 minutes. -/
theorem convert_time_parse_witness :
    convert_time_to_minutes (some (String.mk (['1'] ++ ' ' :: 'h' :: 'o' :: 'u' :: 'r' :: 's' ::
        ' ' :: (['3', '0'] ++ ' ' :: 'm' :: 'i' :: 'n' :: 's' :: [])))) =
      some ((60 * digitsToNat ['1'] + digitsToNat ['3', '0'] : ℕ) : ℚ) :=
  convert_time_parse_behaviour.1 ['1'] ['3', '0'] (by decide) (by decide)

/-! Behaviour of one row of `calculate_score`. -/

lemma scoreRow_present (ctx : ScoreCtx) (r : Listing) (p s m c t Mp mn mx Mm Mc Mt : ℚ)
    (hp : r.payment = some p) (hs : r.size = some s) (hm : r.metro = some m)
    (hc : r.commute = some c) (ht : r.timeToSmithsonian = some t)
    (hMp : ctx.maxPayment = some Mp) (hmn : ctx.minSqFt = some mn)
    (hmx : ctx.maxSqFt = some mx) (hMm : ctx.maxMetro = some Mm)
    (hMc : ctx.maxCommute = some Mc) (hMt : ctx.maxTransit = some Mt)
    (hMp0 : Mp ≠ 0) (hS0 : mx - mn ≠ 0) (hMm0 : Mm ≠ 0) (hMc0 : Mc ≠ 0) (hMt0 : Mt ≠ 0) :
    scoreRow ctx r =
      ⟨r, some (1 - p / Mp), some ((s - mn) / (mx - mn)), some (1 - m / Mm),
        some (1 - c / Mc), some (1 - t / Mt),
        some (0.25 * (1 - p / Mp) + 0.25 * ((s - mn) / (mx - mn)) + 0.20 * (1 - m / Mm)
          + 0.20 * (1 - c / Mc) + 0.10 * (1 - t / Mt))⟩ := by
  simp [scoreRow, hp, hs, hm, hc, ht, hMp, hmn, hmx, hMm, hMc, hMt,
    nanSub, nanDiv, nanAdd, nanMul, hMp0, hS0, hMm0, hMc0, hMt0]

lemma scoreRow_isSome_of_present (ctx : ScoreCtx) (r : Listing) (hfull : FullyPresent r)
    (Mp mn mx Mm Mc Mt : ℚ)
    (hMp : ctx.maxPayment = some Mp) (hmn : ctx.minSqFt = some mn)
    (hmx : ctx.maxSqFt = some mx) (hMm : ctx.maxMetro = some Mm)
    (hMc : ctx.maxCommute = some Mc) (hMt : ctx.maxTransit = some Mt)
    (hMp0 : Mp ≠ 0) (hS0 : mx - mn ≠ 0) (hMm0 : Mm ≠ 0) (hMc0 : Mc ≠ 0) (hMt0 : Mt ≠ 0) :
    (scoreRow ctx r).score.isSome := by
  obtain ⟨p, hp⟩ := Option.isSome_iff_exists.mp hfull.1
  obtain ⟨s, hs⟩ := Option.isSome_iff_exists.mp hfull.2.1
  obtain ⟨m, hm⟩ := Option.isSome_iff_exists.mp hfull.2.2.1
  obtain ⟨c, hc⟩ := Option.isSome_iff_exists.mp hfull.2.2.2.1
  obtain ⟨t, ht⟩ := Option.isSome_iff_exists.mp hfull.2.2.2.2
  rw [scoreRow_present ctx r p s m c t Mp mn mx Mm Mc Mt hp hs hm hc ht
    hMp hmn hmx hMm hMc hMt hMp0 hS0 hMm0 hMc0 hMt0]
  rfl

lemma scoreRow_missing_size (ctx : ScoreCtx) (r : Listing) (h : r.size = none) :
    (scoreRow ctx r).normSize = none ∧ (scoreRow ctx r).score = none := by
  constructor
  · simp [scoreRow, h, nanSub_none_left, nanDiv_none_left]
  · simp [scoreRow, h, nanSub_none_left, nanDiv_none_left, nanMul_none_right,
      nanAdd_none_left, nanAdd_none_right]

/-- C1.  On a collection whose listings all carry numeric metrics (and whose
maxima, used as denominators, are nonzero so the claimed formulas denote),
`calculate_score` assigns each listing exactly the normalization formulas
and the fixed-weight score the spec states. -/
theorem calculate_score_assigns_formulas (rows : List Listing) (r : Listing) (hr : r ∈ rows)
    (p s m c t Mp mn mx Mm Mc Mt : ℚ)
    (hp : r.payment = some p) (hs : r.size = some s) (hm : r.metro = some m)
    (hc : r.commute = some c) (ht : r.timeToSmithsonian = some t)
    (hMp : colMax (rows.map fun l => l.payment) = some Mp) (hMp0 : Mp ≠ 0)
    (hmn : colMin (rows.map fun l => l.size) = some mn)
    (hmx : colMax (rows.map fun l => l.size) = some mx) (hS0 : mx - mn ≠ 0)
    (hMm : colMax (rows.map fun l => l.metro) = some Mm) (hMm0 : Mm ≠ 0)
    (hMc : colMax (rows.map fun l => l.commute) = some Mc) (hMc0 : Mc ≠ 0)
    (hMt : colMax (rows.map fun l => l.timeToSmithsonian) = some Mt) (hMt0 : Mt ≠ 0) :
    scoreRow (mkCtx rows) r ∈ calculate_score rows ∧
    scoreRow (mkCtx rows) r =
      ⟨r, some (1 - p / Mp), some ((s - mn) / (mx - mn)), some (1 - m / Mm),
        some (1 - c / Mc), some (1 - t / Mt),
        some (0.25 * (1 - p / Mp) + 0.25 * ((s - mn) / (mx - mn)) + 0.20 * (1 - m / Mm)
          + 0.20 * (1 - c / Mc) + 0.10 * (1 - t / Mt))⟩ := by
  refine ⟨List.mem_map_of_mem _ hr, ?_⟩
  exact scoreRow_present (mkCtx rows) r p s m c t Mp mn mx Mm Mc Mt hp hs hm hc ht
    hMp hmn hmx hMm hMc hMt hMp0 hS0 hMm0 hMc0 hMt0

/-- C1, witness: the first listing of the two-listing collection receives
exactly the claimed normalized values and weighted score. -/
theorem calculate_score_assigns_formulas_witness :
    scoreRow (mkCtx c1rows) ⟨some 1000, some 500, some 100, some 10, some 20⟩ =
      ⟨⟨some 1000, some 500, some 100, some 10, some 20⟩,
        some (1 - 1000 / 2000), some ((500 - 500) / (900 - 500)), some (1 - 100 / 300),
        some (1 - 10 / 30), some (1 - 20 / 60),
        some (0.25 * (1 - 1000 / 2000) + 0.25 * ((500 - 500) / (900 - 500))
          + 0.20 * (1 - 100 / 300) + 0.20 * (1 - 10 / 30) + 0.10 * (1 - 20 / 60))⟩ :=
  (calculate_score_assigns_formulas c1rows _ (by simp [c1rows]) 1000 500 100 10 20
    2000 500 900 300 30 60 rfl rfl rfl rfl rfl
    (by norm_num [c1rows, colMax, nanMax, max_def]) (by norm_num)
    (by norm_num [c1rows, colMin, nanMin, min_def])
    (by norm_num [c1rows, colMax, nanMax, max_def]) (by norm_num)
    (by norm_num [c1rows, colMax, nanMax, max_def]) (by norm_num)
    (by norm_num [c1rows, colMax, nanMax, max_def]) (by norm_num)
    (by norm_num [c1rows, colMax, nanMax, max_def]) (by norm_num)).2

/-- C3.  When every listing shares the identical payment 2000, the code
assigns every listing Normalized Monthly Payment 0 (since 1 minus v over max
is 0), not the neutral 0.5 the spec policy requires. -/
theorem calculate_score_equal_payments_eval :
    (calculate_score c3rows).map (fun r => r.normPayment) =
      [some 0, some 0, some 0, some 0, some 0] ∧ ((0 : ℚ) ≠ 1 / 2) := by
  constructor
  · norm_num [c3rows, calculate_score, mkCtx, scoreRow, colMax, colMin,
      nanMax, nanMin, nanAdd, nanSub, nanMul, nanDiv, max_def, min_def]
  · norm_num

/-- C7, counterexample to the claim as stated: on the end-to-end scenario
the score of the first-ranked listing is 271 over 360, not 1.0. -/
theorem scenario_counterexample :
    ((sortScoredDesc (calculate_score c7rows)).map fun r => r.score).head? =
      some (some ((271 : ℚ) / 360)) ∧ ((271 : ℚ) / 360) ≠ 1 := by
  constructor
  · norm_num [c7rows, calculate_score, mkCtx, scoreRow, colMax, colMin,
      nanMax, nanMin, nanAdd, nanSub, nanMul, nanDiv, max_def, min_def,
      sortScoredDesc, sortDesc, insertDesc, scoreVal]
  · norm_num

/-- C7, amended: the scenario ranks listing 3 (payment 1000) first with
score 271 over 360 and listing 2 (payment 3000) last with score 1 over 8. -/
theorem scenario_amended :
    (sortScoredDesc (calculate_score c7rows)).map (fun r => (r.listing.payment, r.score)) =
      [(some 1000, some ((271 : ℚ) / 360)), (some 2000, some ((3 : ℚ) / 10)),
        (some 3000, some ((1 : ℚ) / 8))] := by
  norm_num [c7rows, calculate_score, mkCtx, scoreRow, colMax, colMin,
    nanMax, nanMin, nanAdd, nanSub, nanMul, nanDiv, max_def, min_def,
    sortScoredDesc, sortDesc, insertDesc, scoreVal]

/-! Bounds relating a present cell to its column aggregates. -/

lemma colMax_isSome_of_mem (xs : List Val) (v : ℚ) (hv : some v ∈ xs) :
    (colMax xs).isSome := by
  induction xs with
  | nil => simp at hv
  | cons x tail ih =>
    cases x with
    | none =>
      have hvt : some v ∈ tail := by simpa using hv
      simpa [colMax, nanMax] using ih hvt
    | some a =>
      show (nanMax (some a) (colMax tail)).isSome
      cases colMax tail <;> rfl

lemma colMin_isSome_of_mem (xs : List Val) (v : ℚ) (hv : some v ∈ xs) :
    (colMin xs).isSome := by
  induction xs with
  | nil => simp at hv
  | cons x tail ih =>
    cases x with
    | none =>
      have hvt : some v ∈ tail := by simpa using hv
      simpa [colMin, nanMin] using ih hvt
    | some a =>
      show (nanMin (some a) (colMin tail)).isSome
      cases colMin tail <;> rfl

lemma le_colMax (xs : List Val) :
    ∀ (v M : ℚ), some v ∈ xs → colMax xs = some M → v ≤ M := by
  induction xs with
  | nil => intro v M hv _; simp at hv
  | cons x tail ih =>
    intro v M hv hM
    replace hM : nanMax x (colMax tail) = some M := hM
    rcases List.mem_cons.mp hv with hx | hvt
    · subst hx
      cases h2 : colMax tail with
      | none => rw [h2] at hM; injection hM with h3; exact h3 ▸ le_refl v
      | some w =>
        rw [h2] at hM; injection hM with h3; exact h3 ▸ le_max_left v w
    · obtain ⟨w, hw⟩ := Option.isSome_iff_exists.mp (colMax_isSome_of_mem tail v hvt)
      have hvw := ih v w hvt hw
      cases x with
      | none =>
        rw [hw] at hM
        injection hM with h3
        exact h3 ▸ hvw
      | some a =>
        rw [hw] at hM
        injection hM with h3
        exact h3 ▸ hvw.trans (le_max_right a w)

lemma colMin_le (xs : List Val) :
    ∀ (v m : ℚ), some v ∈ xs → colMin xs = some m → m ≤ v := by
  induction xs with
  | nil => intro v m hv _; simp at hv
  | cons x tail ih =>
    intro v m hv hm
    replace hm : nanMin x (colMin tail) = some m := hm
    rcases List.mem_cons.mp hv with hx | hvt
    · subst hx
      cases h2 : colMin tail with
      | none => rw [h2] at hm; injection hm with h3; exact h3 ▸ le_refl v
      | some w =>
        rw [h2] at hm; injection hm with h3; exact h3 ▸ min_le_left v w
    · obtain ⟨w, hw⟩ := Option.isSome_iff_exists.mp (colMin_isSome_of_mem tail v hvt)
      have hwv := ih v w hvt hw
      cases x with
      | none =>
        rw [hw] at hm
        injection hm with h3
        exact h3 ▸ hwv
      | some a =>
        rw [hw] at hm
        injection hm with h3
        exact h3 ▸ (min_le_right a w).trans hwv

/-- C9.  On a well-formed collection (metrics present and non-negative,
positive maxima for the four lower-is-better metrics, a non-degenerate size
range), each listing receives five normalized values in the unit interval
and a score in the unit interval. -/
theorem calculate_score_bounds (rows : List Listing) (r : Listing) (hr : r ∈ rows)
    (p s m c t Mp mn mx Mm Mc Mt : ℚ)
    (hp : r.payment = some p) (hs : r.size = some s) (hm : r.metro = some m)
    (hc : r.commute = some c) (ht : r.timeToSmithsonian = some t)
    (hp0 : 0 ≤ p) (hs0 : 0 ≤ s) (hm0 : 0 ≤ m) (hc0 : 0 ≤ c) (ht0 : 0 ≤ t)
    (hMp : colMax (rows.map fun l => l.payment) = some Mp) (hMppos : 0 < Mp)
    (hmn : colMin (rows.map fun l => l.size) = some mn)
    (hmx : colMax (rows.map fun l => l.size) = some mx) (hlt : mn < mx)
    (hMm : colMax (rows.map fun l => l.metro) = some Mm) (hMmpos : 0 < Mm)
    (hMc : colMax (rows.map fun l => l.commute) = some Mc) (hMcpos : 0 < Mc)
    (hMt : colMax (rows.map fun l => l.timeToSmithsonian) = some Mt) (hMtpos : 0 < Mt) :
    ∃ np ns nm nc nt sc : ℚ,
      scoreRow (mkCtx rows) r ∈ calculate_score rows ∧
      scoreRow (mkCtx rows) r = ⟨r, some np, some ns, some nm, some nc, some nt, some sc⟩ ∧
      0 ≤ np ∧ np ≤ 1 ∧ 0 ≤ ns ∧ ns ≤ 1 ∧ 0 ≤ nm ∧ nm ≤ 1 ∧
      0 ≤ nc ∧ nc ≤ 1 ∧ 0 ≤ nt ∧ nt ≤ 1 ∧ 0 ≤ sc ∧ sc ≤ 1 := by
  have hrange : (0 : ℚ) < mx - mn := sub_pos.mpr hlt
  have hpM : p ≤ Mp := le_colMax _ p Mp (hp ▸ List.mem_map_of_mem _ hr) hMp
  have hmM : m ≤ Mm := le_colMax _ m Mm (hm ▸ List.mem_map_of_mem _ hr) hMm
  have hcM : c ≤ Mc := le_colMax _ c Mc (hc ▸ List.mem_map_of_mem _ hr) hMc
  have htM : t ≤ Mt := le_colMax _ t Mt (ht ▸ List.mem_map_of_mem _ hr) hMt
  have hmns : mn ≤ s := colMin_le _ s mn (hs ▸ List.mem_map_of_mem _ hr) hmn
  have hsmx : s ≤ mx := le_colMax _ s mx (hs ▸ List.mem_map_of_mem _ hr) hmx
  have b1 : (0 : ℚ) ≤ 1 - p / Mp := sub_nonneg.mpr ((div_le_one hMppos).mpr hpM)
  have b2 : 1 - p / Mp ≤ 1 := sub_le_self 1 (div_nonneg hp0 hMppos.le)
  have b3 : (0 : ℚ) ≤ (s - mn) / (mx - mn) := div_nonneg (sub_nonneg.mpr hmns) hrange.le
  have b4 : (s - mn) / (mx - mn) ≤ 1 := (div_le_one hrange).mpr (sub_le_sub_right hsmx mn)
  have b5 : (0 : ℚ) ≤ 1 - m / Mm := sub_nonneg.mpr ((div_le_one hMmpos).mpr hmM)
  have b6 : 1 - m / Mm ≤ 1 := sub_le_self 1 (div_nonneg hm0 hMmpos.le)
  have b7 : (0 : ℚ) ≤ 1 - c / Mc := sub_nonneg.mpr ((div_le_one hMcpos).mpr hcM)
  have b8 : 1 - c / Mc ≤ 1 := sub_le_self 1 (div_nonneg hc0 hMcpos.le)
  have b9 : (0 : ℚ) ≤ 1 - t / Mt := sub_nonneg.mpr ((div_le_one hMtpos).mpr htM)
  have b10 : 1 - t / Mt ≤ 1 := sub_le_self 1 (div_nonneg ht0 hMtpos.le)
  refine ⟨1 - p / Mp, (s - mn) / (mx - mn), 1 - m / Mm, 1 - c / Mc, 1 - t / Mt,
    0.25 * (1 - p / Mp) + 0.25 * ((s - mn) / (mx - mn)) + 0.20 * (1 - m / Mm)
      + 0.20 * (1 - c / Mc) + 0.10 * (1 - t / Mt),
    List.mem_map_of_mem _ hr,
    scoreRow_present (mkCtx rows) r p s m c t Mp mn mx Mm Mc Mt hp hs hm hc ht
      hMp hmn hmx hMm hMc hMt hMppos.ne' hrange.ne' hMmpos.ne' hMcpos.ne' hMtpos.ne',
    b1, b2, b3, b4, b5, b6, b7, b8, b9, b10, by linarith, by linarith⟩

/-- C9, witness: the bounds hold for the first listing of the two-listing
collection. -/
theorem calculate_score_bounds_witness :
    ∃ np ns nm nc nt sc : ℚ,
      scoreRow (mkCtx c1rows) ⟨some 1000, some 500, some 100, some 10, some 20⟩ ∈
          calculate_score c1rows ∧
      scoreRow (mkCtx c1rows) ⟨some 1000, some 500, some 100, some 10, some 20⟩ =
        ⟨⟨some 1000, some 500, some 100, some 10, some 20⟩,
          some np, some ns, some nm, some nc, some nt, some sc⟩ ∧
      0 ≤ np ∧ np ≤ 1 ∧ 0 ≤ ns ∧ ns ≤ 1 ∧ 0 ≤ nm ∧ nm ≤ 1 ∧
      0 ≤ nc ∧ nc ≤ 1 ∧ 0 ≤ nt ∧ nt ≤ 1 ∧ 0 ≤ sc ∧ sc ≤ 1 :=
  calculate_score_bounds c1rows _ (by simp [c1rows]) 1000 500 100 10 20
    2000 500 900 300 30 60 rfl rfl rfl rfl rfl
    (by norm_num) (by norm_num) (by norm_num) (by norm_num) (by norm_num)
    (by norm_num [c1rows, colMax, nanMax, max_def]) (by norm_num)
    (by norm_num [c1rows, colMin, nanMin, min_def])
    (by norm_num [c1rows, colMax, nanMax, max_def]) (by norm_num)
    (by norm_num [c1rows, colMax, nanMax, max_def]) (by norm_num)
    (by norm_num [c1rows, colMax, nanMax, max_def]) (by norm_num)
    (by norm_num [c1rows, colMax, nanMax, max_def]) (by norm_num)

/-! Facts about the descending sort with NaN scores placed last. -/

lemma insertDesc_perm (r : ScoredListing) (l : List ScoredListing) :
    (insertDesc r l).Perm (r :: l) := by
  induction l with
  | nil => exact List.Perm.refl _
  | cons x xs ih =>
    by_cases h : scoreVal x ≤ scoreVal r
    · rw [insertDesc, if_pos h]
    · rw [insertDesc, if_neg h]
      exact (ih.cons x).trans (List.Perm.swap r x xs)

lemma sortDesc_perm (l : List ScoredListing) : (sortDesc l).Perm l := by
  induction l with
  | nil => exact List.Perm.refl _
  | cons x xs ih => exact (insertDesc_perm x (sortDesc xs)).trans (ih.cons x)

lemma filter_isNone_eq :
    (fun r : ScoredListing => r.score.isNone) = fun r => !(r.score.isSome) := by
  funext r
  cases r.score <;> rfl

lemma sortScoredDesc_perm (l : List ScoredListing) : (sortScoredDesc l).Perm l := by
  have h1 := sortDesc_perm (l.filter fun r => r.score.isSome)
  have h2 : ((l.filter fun r => r.score.isSome) ++ l.filter fun r => r.score.isNone).Perm l := by
    rw [filter_isNone_eq]
    exact List.filter_append_perm _ l
  exact (h1.append_right _).trans h2

/-- C4.  A listing with a missing Size among otherwise fully-present
listings (whose aggregates are non-degenerate) gets NaN as its normalized
size, hence never 0 or 1; its score is NaN; every other listing still gets
a present score; the ranked output places the incomplete listing last and
loses no listing. -/
theorem pipeline_missing_size (pre post : List Listing) (bad : Listing)
    (hbad : bad.size = none)
    (hfull : ∀ r ∈ pre ++ post, FullyPresent r)
    (Mp mn mx Mm Mc Mt : ℚ)
    (hMp : colMax ((pre ++ bad :: post).map fun l => l.payment) = some Mp) (hMp0 : Mp ≠ 0)
    (hmn : colMin ((pre ++ bad :: post).map fun l => l.size) = some mn)
    (hmx : colMax ((pre ++ bad :: post).map fun l => l.size) = some mx) (hS0 : mx - mn ≠ 0)
    (hMm : colMax ((pre ++ bad :: post).map fun l => l.metro) = some Mm) (hMm0 : Mm ≠ 0)
    (hMc : colMax ((pre ++ bad :: post).map fun l => l.commute) = some Mc) (hMc0 : Mc ≠ 0)
    (hMt : colMax ((pre ++ bad :: post).map fun l => l.timeToSmithsonian) = some Mt)
    (hMt0 : Mt ≠ 0) :
    (scoreRow (mkCtx (pre ++ bad :: post)) bad).normSize = none ∧
    (scoreRow (mkCtx (pre ++ bad :: post)) bad).normSize ≠ some 0 ∧
    (scoreRow (mkCtx (pre ++ bad :: post)) bad).normSize ≠ some 1 ∧
    (scoreRow (mkCtx (pre ++ bad :: post)) bad).score = none ∧
    (∀ r ∈ pre ++ post, (scoreRow (mkCtx (pre ++ bad :: post)) r).score.isSome) ∧
    sortScoredDesc (calculate_score (pre ++ bad :: post)) =
      sortDesc ((pre ++ post).map (scoreRow (mkCtx (pre ++ bad :: post)))) ++
        [scoreRow (mkCtx (pre ++ bad :: post)) bad] ∧
    (sortScoredDesc (calculate_score (pre ++ bad :: post))).Perm
      (calculate_score (pre ++ bad :: post)) := by
  have hmiss := scoreRow_missing_size (mkCtx (pre ++ bad :: post)) bad hbad
  have hsome : ∀ r ∈ pre ++ post, (scoreRow (mkCtx (pre ++ bad :: post)) r).score.isSome :=
    fun r hr => scoreRow_isSome_of_present _ r (hfull r hr) Mp mn mx Mm Mc Mt
      hMp hmn hmx hMm hMc hMt hMp0 hS0 hMm0 hMc0 hMt0
  have hmapeq : calculate_score (pre ++ bad :: post) =
      pre.map (scoreRow (mkCtx (pre ++ bad :: post))) ++
        scoreRow (mkCtx (pre ++ bad :: post)) bad ::
          post.map (scoreRow (mkCtx (pre ++ bad :: post))) := by
    simp [calculate_score]
  have hbadnone : (scoreRow (mkCtx (pre ++ bad :: post)) bad).score.isSome = false := by
    rw [hmiss.2]; rfl
  have hkeep : ∀ x ∈ pre.map (scoreRow (mkCtx (pre ++ bad :: post))) ++
      post.map (scoreRow (mkCtx (pre ++ bad :: post))), x.score.isSome = true := by
    intro x hx
    rw [← List.map_append] at hx
    obtain ⟨r, hr, rfl⟩ := List.mem_map.mp hx
    exact hsome r hr
  have hdrop : ∀ x ∈ pre.map (scoreRow (mkCtx (pre ++ bad :: post))) ++
      post.map (scoreRow (mkCtx (pre ++ bad :: post))), x.score.isNone = false := by
    intro x hx
    obtain ⟨y, hy⟩ := Option.isSome_iff_exists.mp (hkeep x hx)
    rw [hy]; rfl
  have hfilterS : (calculate_score (pre ++ bad :: post)).filter (fun r => r.score.isSome) =
      (pre ++ post).map (scoreRow (mkCtx (pre ++ bad :: post))) := by
    rw [hmapeq, List.filter_append, List.filter_cons]
    simp only [hbadnone, Bool.false_eq_true, if_false]
    rw [List.filter_eq_self.mpr (fun x hx => hkeep x (List.mem_append_left _ hx)),
      List.filter_eq_self.mpr (fun x hx => hkeep x (List.mem_append_right _ hx)),
      ← List.map_append]
  have hfilterN : (calculate_score (pre ++ bad :: post)).filter (fun r => r.score.isNone) =
      [scoreRow (mkCtx (pre ++ bad :: post)) bad] := by
    rw [hmapeq, List.filter_append, List.filter_cons]
    have hbn : (scoreRow (mkCtx (pre ++ bad :: post)) bad).score.isNone = true := by
      rw [hmiss.2]; rfl
    simp only [hbn, if_true]
    have hd1 : ∀ x ∈ pre.map (scoreRow (mkCtx (pre ++ bad :: post))),
        ¬(x.score.isNone = true) := by
      intro x hx hcon
      rw [hdrop x (List.mem_append_left _ hx)] at hcon
      exact Bool.false_ne_true hcon
    have hd2 : ∀ x ∈ post.map (scoreRow (mkCtx (pre ++ bad :: post))),
        ¬(x.score.isNone = true) := by
      intro x hx hcon
      rw [hdrop x (List.mem_append_right _ hx)] at hcon
      exact Bool.false_ne_true hcon
    rw [List.filter_eq_nil_iff.mpr hd1, List.filter_eq_nil_iff.mpr hd2]
    rfl
  refine ⟨hmiss.1, ?_, ?_, hmiss.2, hsome, ?_, sortScoredDesc_perm _⟩
  · rw [hmiss.1]; exact fun h => Option.noConfusion h
  · rw [hmiss.1]; exact fun h => Option.noConfusion h
  · show sortDesc _ ++ _ = _
    rw [hfilterS, hfilterN]

/-- C4, witness: in the concrete three-listing collection whose middle
listing lacks Size, the ranked output is the two scored listings followed by
the incomplete one. -/
theorem pipeline_missing_size_witness :
    sortScoredDesc (calculate_score (c4pre ++ c4bad :: c4post)) =
      sortDesc ((c4pre ++ c4post).map (scoreRow (mkCtx (c4pre ++ c4bad :: c4post)))) ++
        [scoreRow (mkCtx (c4pre ++ c4bad :: c4post)) c4bad] :=
  (pipeline_missing_size c4pre c4post c4bad rfl (by decide) 3000 800 1200 300 30 45
    (by norm_num [c4pre, c4bad, c4post, colMax, nanMax, max_def]) (by norm_num)
    (by norm_num [c4pre, c4bad, c4post, colMin, nanMin, min_def])
    (by norm_num [c4pre, c4bad, c4post, colMax, nanMax, max_def]) (by norm_num)
    (by norm_num [c4pre, c4bad, c4post, colMax, nanMax, max_def]) (by norm_num)
    (by norm_num [c4pre, c4bad, c4post, colMax, nanMax, max_def]) (by norm_num)
    (by norm_num [c4pre, c4bad, c4post, colMax, nanMax, max_def])
    (by norm_num)).2.2.2.2.2.1

/-! Invariance of the aggregates, hence of the score of each listing, under
reordering the input collection. -/

lemma foldr_perm_of_left_comm (f : Val → Val → Val)
    (hf : ∀ a b c, f a (f b c) = f b (f a c)) :
    ∀ {l1 l2 : List Val}, l1.Perm l2 → ∀ init : Val, l1.foldr f init = l2.foldr f init := by
  intro l1 l2 h
  induction h with
  | nil => intro init; rfl
  | cons x _ ih => intro init; simp [List.foldr_cons, ih init]
  | swap x y l => intro init; exact hf y x (l.foldr f init)
  | trans _ _ ih1 ih2 => intro init; rw [ih1 init, ih2 init]

lemma nanMax_left_comm (a b c : Val) : nanMax a (nanMax b c) = nanMax b (nanMax a c) := by
  cases a <;> cases b <;> cases c <;> simp [nanMax, max_left_comm, max_comm]

lemma nanMin_left_comm (a b c : Val) : nanMin a (nanMin b c) = nanMin b (nanMin a c) := by
  cases a <;> cases b <;> cases c <;> simp [nanMin, min_left_comm, min_comm]

lemma colMax_perm (xs ys : List Val) (h : xs.Perm ys) : colMax xs = colMax ys :=
  foldr_perm_of_left_comm nanMax nanMax_left_comm h none

lemma colMin_perm (xs ys : List Val) (h : xs.Perm ys) : colMin xs = colMin ys :=
  foldr_perm_of_left_comm nanMin nanMin_left_comm h none

lemma mkCtx_perm (rows rows2 : List Listing) (h : rows.Perm rows2) :
    mkCtx rows = mkCtx rows2 := by
  simp only [mkCtx, ScoreCtx.mk.injEq]
  refine ⟨?_, ?_, ?_, ?_, ?_, ?_⟩
  · exact colMax_perm _ _ (h.map fun l => l.payment)
  · exact colMin_perm _ _ (h.map fun l => l.size)
  · exact colMax_perm _ _ (h.map fun l => l.size)
  · exact colMax_perm _ _ (h.map fun l => l.metro)
  · exact colMax_perm _ _ (h.map fun l => l.commute)
  · exact colMax_perm _ _ (h.map fun l => l.timeToSmithsonian)

/-- C8.  Permuting the input collection leaves the aggregates, and with them
the score `calculate_score` assigns each individual listing, unchanged: the
permuted collection is scored by exactly the same per-row function as the
original. -/
theorem calculate_score_perm_invariant (rows rows2 : List Listing) (h : rows.Perm rows2) :
    calculate_score rows2 = rows2.map (scoreRow (mkCtx rows)) ∧
    ∀ r : Listing, scoreRow (mkCtx rows2) r = scoreRow (mkCtx rows) r := by
  have hc := mkCtx_perm rows rows2 h
  exact ⟨by rw [calculate_score, hc], fun r => by rw [hc]⟩

/-- C8, witness: swapping the two listings of a collection leaves the score
row computed for the first listing unchanged. -/
theorem calculate_score_perm_invariant_witness :
    scoreRow (mkCtx [c8b, c8a]) c8a = scoreRow (mkCtx [c8a, c8b]) c8a :=
  (calculate_score_perm_invariant [c8a, c8b] [c8b, c8a] (List.Perm.swap c8b c8a [])).2 c8a

/-- C2.  The payment calculator of src/app.py computes the amortized
monthly payment on 80 percent of the price at monthly rate r over 12, over
12 n installments, plus monthly tax and HOA; with a zero monthly rate it
amortizes straight-line. -/
theorem calculate_monthly_payment_formula (P T H r : ℚ) (n : ℕ) (hr : 0 ≤ r) :
    (0 < r / 12 →
      calculate_monthly_payment P T H r n =
        0.8 * P * ((r / 12) * (1 + r / 12) ^ (12 * n)) / ((1 + r / 12) ^ (12 * n) - 1)
          + T / 12 + H) ∧
    (r / 12 = 0 →
      calculate_monthly_payment P T H r n = 0.8 * P / ((12 * n : ℕ) : ℚ) + T / 12 + H) := by
  constructor
  · intro hi
    simp only [calculate_monthly_payment, if_pos hi]
    rw [Nat.mul_comm n 12]
    ring
  · intro h0
    have hneg : ¬(0 : ℚ) < r / 12 := by rw [h0]; exact lt_irrefl 0
    simp only [calculate_monthly_payment, if_neg hneg]
    rw [Nat.mul_comm n 12]
    push_cast
    ring

/-- C2, witness: at rate zero the calculator returns straight-line
amortization of 80 percent of the price plus monthly tax and HOA. -/
theorem calculate_monthly_payment_formula_witness :
    calculate_monthly_payment 100000 1200 50 0 30 =
      0.8 * 100000 / ((12 * 30 : ℕ) : ℚ) + 1200 / 12 + 50 :=
  (calculate_monthly_payment_formula 100000 1200 50 0 30 (le_refl 0)).2 (by norm_num)

/-- C10.  The Commute column is the arithmetic mean of the parsed time to
NIH and the parsed time from NIH, and it is missing exactly when either
parsed value is missing. -/
theorem commute_mean_of_parsed (t f : Option String) (a b : ℚ) :
    (convert_time_to_minutes t = some a → convert_time_to_minutes f = some b →
      commuteMinutes t f = some ((a + b) / 2)) ∧
    (convert_time_to_minutes t = none ∨ convert_time_to_minutes f = none →
      commuteMinutes t f = none) := by
  constructor
  · intro hta hfb
    rw [commuteMinutes, hta, hfb]
    show nanDiv (some (b + a)) (some 2) = some ((a + b) / 2)
    rw [nanDiv, if_neg (by norm_num : ¬(2 : ℚ) = 0)]
    rw [add_comm b a]
  · intro hmiss
    rcases hmiss with hm | hm <;> rw [commuteMinutes, hm]
    · rw [nanAdd_none_right]
      exact nanDiv_none_left _
    · rw [nanAdd_none_left]
      exact nanDiv_none_left _

/-- C10, witness: times of 30 and 40 minutes average to a 35 minute
commute. -/
theorem commute_mean_of_parsed_witness :
    commuteMinutes (some "30 mins") (some "40 mins") = some ((30 + 40) / 2) :=
  (commute_mean_of_parsed (some "30 mins") (some "40 mins") 30 40).1 (by decide) (by decide)

end PropertyRankings
